import Mathlib

/-!
Shallow embedding of the ArcadePay backend (`src/server.py`).

The server keeps three tables: `User` (wallets with an integer token
balance), `Transaction` (spend/purchase records with a status lifecycle
pending → verified/failed) and `Machine` (arcade machines with a
tokens-per-credit rate).  We embed the database as a pure state record:

* wallet balances are a total function `String → Int` — `get_or_create_user`
  makes a missing row indistinguishable from a row with balance 0, so the
  total-function view is exact;
* the transaction table is a list in insertion order; primary keys
  (`uuid4()` strings in the source) are modelled as naturals allocated from
  a counter, which captures global uniqueness; `created_at` timestamps are
  naturals (seconds); the SQL queries `order_by(created_at)` are embedded
  as explicit stable insertion sorts of the filtered list;
* the machine table is a partial map `String → Option MachineRec`.

Python `int` is `Int` (arbitrary precision, no overflow), Python floor
division `//` is `Int.fdiv`, `abs` is `Int.natAbs` cast back to `Int`.
Missing JSON fields that the code tests with `if not x` are modelled as
the empty string (Python falsiness on strings).  SHA-256 is not
interpreted: every definition that authenticates takes the hex-digest
function `H : String → String` and the shared secret as parameters; all
claims about the signature scheme concern the message layout and the
exact-equality comparison, not the hash internals.  Each HTTP handler
becomes a function `args → now → ServerState → result × ServerState`,
where `now` is the single `datetime.utcnow()` reading of that request.
-/

namespace ArcadePay

/-- Transaction status column: `pending | verified | failed`. -/
inductive Status where
  | pending
  | verified
  | failed
deriving DecidableEq

/-- Transaction type column: the handlers only ever write `spend` and
`purchase` (the declared `refund` value is never used). -/
inductive TxnType where
  | spend
  | purchase
deriving DecidableEq

/-- Row of the `Transaction` table. -/
structure Txn where
  id : Nat
  user_id : String
  machine_id : Option String
  machine_name : Option String
  tokens : Int
  txn_type : TxnType
  status : Status
  created_at : Nat
deriving DecidableEq

/-- Row of the `Machine` table (the `location` column is never written by
any handler and never read, so it is dropped). -/
structure MachineRec where
  name : String
  tokens_per_credit : Int
deriving DecidableEq

/-- The whole database. -/
structure ServerState where
  balances : String → Int
  txns : List Txn
  machines : String → Option MachineRec
  nextId : Nat

/-- Startup state: empty tables except the seeded machine `M001`
("Double Dragon", rate 1) from the `app.app_context()` block. -/
def initState : ServerState :=
  { balances := fun _ => 0
    txns := []
    machines := fun i => if i = "M001" then some ⟨"Double Dragon", 1⟩ else none
    nextId := 0 }

/-- Pointwise update of a balance function: `user.token_balance += a`. -/
def addBal (b : String → Int) (u : String) (a : Int) : String → Int :=
  fun v => if v = u then b v + a else b v

/-- `db.session.get(Transaction, i)`: primary-key lookup. -/
def findTxn (l : List Txn) (i : Nat) : Option Txn :=
  l.find? (fun t => t.id == i)

/-- Mutating the row with primary key `i` (the ORM object mutations
`txn.status = ...` etc. followed by `commit`). -/
def updateTxn (l : List Txn) (i : Nat) (f : Txn → Txn) : List Txn :=
  l.map (fun t => if t.id = i then f t else t)

/-- Message signed by a machine: `f"{machine_id}:{user_id}:{tokens}:{txn_id}"`. -/
def sigMessage (machine_id user_id : String) (tokens : Int) (txn_id : Nat) : String :=
  machine_id ++ ":" ++ user_id ++ ":" ++ toString tokens ++ ":" ++ toString txn_id

/-- `verify_machine_signature`: the expected signature is the hex digest of
the shared secret prepended to the message, compared for exact equality
with the presented signature. -/
def verify_machine_signature (H : String → String) (secret : String)
    (machine_id user_id : String) (tokens : Int) (txn_id : Nat)
    (signature : String) : Bool :=
  H (secret ++ sigMessage machine_id user_id tokens txn_id) == signature

/-- Result of `GET /api/wallet/<user_id>`. -/
structure WalletView where
  user_id : String
  token_balance : Int
deriving DecidableEq

/-- `get_wallet`: reads the balance (`get_or_create_user` makes creation
invisible in the total-function model, so the state is unchanged). -/
def get_wallet (user_id : String) (s : ServerState) : WalletView × ServerState :=
  (⟨user_id, s.balances user_id⟩, s)

/-- Result of `POST /api/debug/give-tokens`. -/
inductive GrantResult where
  | missingUser
  | granted (new_balance : Int)
deriving DecidableEq

/-- `give_tokens`: the debug endpoint adds `amount` to the balance with no
validation of the amount (any `int`, including negative ones, is applied). -/
def give_tokens (user_id : String) (amount : Int) (s : ServerState) :
    GrantResult × ServerState :=
  if user_id = "" then (.missingUser, s)
  else
    (.granted (s.balances user_id + amount),
      { s with balances := addBal s.balances user_id amount })

/-- Result of `POST /api/pay`. -/
inductive PayResult where
  | missingFields
  | insufficient (current required : Int)
  | success (transaction_id : Nat) (new_balance : Int) (expires_in : Nat)
deriving DecidableEq

/-- Display name stored on a new reservation:
`machine.name if machine else machine_id`. -/
def resolveMachineName (s : ServerState) (machine_id : String) : String :=
  match s.machines machine_id with
  | some m => m.name
  | none => machine_id

/-- `app_pay`: reserve a spend.  Requires nonempty `user_id`/`machine_id`
and `balance ≥ tokens` (the source has no positivity check on `tokens`);
on success debits the wallet and appends a pending `spend` transaction with
delta `-tokens`, the machine name resolved from the registry (falling back
to the raw machine id). -/
def app_pay (user_id machine_id : String) (tokens : Int) (now : Nat)
    (s : ServerState) : PayResult × ServerState :=
  if user_id = "" ∨ machine_id = "" then (.missingFields, s)
  else
    let bal := s.balances user_id
    if bal < tokens then (.insufficient bal tokens, s)
    else
      let txn : Txn :=
        { id := s.nextId, user_id := user_id, machine_id := some machine_id
          machine_name := some (resolveMachineName s machine_id), tokens := -tokens
          txn_type := .spend, status := .pending, created_at := now }
      (.success s.nextId (bal - tokens) 60,
        { s with balances := addBal s.balances user_id (-tokens)
                 txns := s.txns ++ [txn]
                 nextId := s.nextId + 1 })

/-- Result of `POST /api/purchase`. -/
inductive PurchaseResult where
  | invalid
  | purchased (new_balance : Int)
deriving DecidableEq

/-- `purchase_tokens`: requires nonempty `user_id` and `tokens > 0`; the
`payment_token` is read but never enforced (the non-`"demo"` branch is a
`pass`), so any proof is accepted; credits the wallet and appends a
`verified` purchase transaction. -/
def purchase_tokens (user_id : String) (tokens : Int) (payment_token : String)
    (now : Nat) (s : ServerState) : PurchaseResult × ServerState :=
  if user_id = "" ∨ tokens ≤ 0 then (.invalid, s)
  else
    let _ := payment_token
    let txn : Txn :=
      { id := s.nextId, user_id := user_id, machine_id := none
        machine_name := some ("Token Purchase"), tokens := tokens
        txn_type := .purchase, status := .verified, created_at := now }
    (.purchased (s.balances user_id + tokens),
      { s with balances := addBal s.balances user_id tokens
               txns := s.txns ++ [txn]
               nextId := s.nextId + 1 })

/-- Result of `POST /api/machine/verify`.  `crashed` is the unhandled
`ZeroDivisionError` the source raises when a registered machine carries
`tokens_per_credit = 0`: Flask answers 500 with no JSON body, but the
status commit issued just before the division persists. -/
inductive VerifyResult where
  | unauthorized
  | notFound
  | alreadyProcessed
  | expired
  | verified (credits : Int) (transaction_id : Nat)
  | crashed
deriving DecidableEq

/-- The mutation `txn.status = "failed"`. -/
def failTxn (x : Txn) : Txn := { x with status := .failed }

/-- The mutation `t.status = "verified"` of the polling sweep. -/
def verifyTxn (x : Txn) : Txn := { x with status := .verified }

/-- Conversion rate used by `machine_verify`:
`machine.tokens_per_credit if machine else 1`. -/
def machineRate (s : ServerState) (machine_id : String) : Int :=
  match s.machines machine_id with
  | some m => m.tokens_per_credit
  | none => 1

/-- `machine_verify`: checks the signature, fetches the transaction,
rejects non-pending ones, refunds `abs(txn.tokens)` and fails the
transaction when older than 60 seconds, and otherwise verifies it, stamps
the request's machine id onto it, and returns
`credits = max(1, tokens // rate)` with the request's `tokens` and the
machine's rate (1 when the machine is unregistered).  When a registered
machine has rate 0 the source raises `ZeroDivisionError` at
`tokens // machine.tokens_per_credit`, after the status/machine-id commit;
that path is modelled as the `crashed` result carrying the committed
state. -/
def machine_verify (H : String → String) (secret : String)
    (machine_id user_id : String) (tokens : Int) (txn_id : Nat)
    (signature : String) (now : Nat) (s : ServerState) :
    VerifyResult × ServerState :=
  if ¬ verify_machine_signature H secret machine_id user_id tokens txn_id signature then
    (.unauthorized, s)
  else
    match findTxn s.txns txn_id with
    | none => (.notFound, s)
    | some txn =>
      if txn.status ≠ .pending then (.alreadyProcessed, s)
      else if ((now : Int) - (txn.created_at : Int)) > 60 then
        (.expired,
          { s with txns := updateTxn s.txns txn_id failTxn
                   balances := addBal s.balances txn.user_id (txn.tokens.natAbs : Int) })
      else
        let s' : ServerState :=
          { s with txns := updateTxn s.txns txn_id
                     (fun t => { t with status := .verified, machine_id := some machine_id }) }
        if machineRate s machine_id = 0 then (.crashed, s')
        else (.verified (max 1 (Int.fdiv tokens (machineRate s machine_id))) txn_id, s')

/-- `clear_history`: `DELETE /api/history/<user_id>` deletes every
transaction row of the user and nothing else. -/
def clear_history (user_id : String) (s : ServerState) : ServerState :=
  { s with txns := s.txns.filter (fun t => !(t.user_id == user_id)) }

/-- Python string truthiness of `a or d` for an optional `a`: the default
wins when `a` is absent or empty. -/
def strOr (a : Option String) (d : String) : String :=
  match a with
  | some x => if x = "" then d else x
  | none => d

/-- Entry of the history listing. -/
structure HistEntry where
  id : Nat
  type : TxnType
  tokens : Int
  machine : String
  machine_name : String
  status : Status
  time : Nat
deriving DecidableEq

/-- `get_history`: the user's transactions ordered newest-first
(`created_at.desc()`), capped at 50; `machine` falls back to "Top Up" and
`machine_name` to the machine id and then "Token Purchase".  Read-only. -/
def get_history (user_id : String) (s : ServerState) : List HistEntry :=
  (((s.txns.filter (fun t => t.user_id == user_id)).insertionSort
      (fun a b => b.created_at ≤ a.created_at)).take 50).map
    (fun t =>
      { id := t.id, type := t.txn_type, tokens := t.tokens
        machine := strOr t.machine_id ("Top Up")
        machine_name := strOr t.machine_name (strOr t.machine_id ("Token Purchase"))
        status := t.status, time := t.created_at })

/-- Result of `POST /api/machine/register`. -/
inductive RegisterResult where
  | missingMachine
  | registered (machine_id name : String)
deriving DecidableEq

/-- `register_machine`: upserts the machine row, overwriting name and rate;
`tokens_per_credit` is taken as any `int` with no positivity check. -/
def register_machine (machine_id name : String) (tokens_per_credit : Int)
    (s : ServerState) : RegisterResult × ServerState :=
  if machine_id = "" then (.missingMachine, s)
  else
    (.registered machine_id name,
      { s with machines := fun i =>
          if i = machine_id then some ⟨name, tokens_per_credit⟩ else s.machines i })

/-- Entry returned to the polling machine controller:
`(transaction id, abs(tokens), user id)`. -/
structure PendEntry where
  id : Nat
  tokens : Int
  user_id : String
deriving DecidableEq

/-- Loop body of `get_pending`: walk the fetched pending rows in order;
an expired row (age > 60) is failed and its owner refunded `abs(tokens)`
and it is not returned; a fresh row is verified and returned. -/
def sweepLoop (now : Nat) : List Txn → ServerState → List PendEntry →
    List PendEntry × ServerState
  | [], s, acc => (acc.reverse, s)
  | t :: rest, s, acc =>
    if ((now : Int) - (t.created_at : Int)) > 60 then
      sweepLoop now rest
        { s with txns := updateTxn s.txns t.id failTxn
                 balances := addBal s.balances t.user_id (t.tokens.natAbs : Int) }
        acc
    else
      sweepLoop now rest
        { s with txns := updateTxn s.txns t.id verifyTxn }
        (⟨t.id, (t.tokens.natAbs : Int), t.user_id⟩ :: acc)

/-- The query of `get_pending`: the machine's pending transactions ordered
oldest-first (`created_at.asc()`, embedded as a stable insertion sort). -/
def pendingSorted (machine_id : String) (s : ServerState) : List Txn :=
  (s.txns.filter (fun t => decide (t.machine_id = some machine_id ∧ t.status = .pending))).insertionSort
    (fun a b => a.created_at ≤ b.created_at)

/-- `get_pending`: `GET /api/machine/pending/<machine_id>`. -/
def get_pending (machine_id : String) (now : Nat) (s : ServerState) :
    List PendEntry × ServerState :=
  sweepLoop now (pendingSorted machine_id s) s []

/-- One exposed operation with its request arguments. -/
inductive Op where
  | getWallet (user_id : String)
  | giveTokens (user_id : String) (amount : Int)
  | pay (user_id machine_id : String) (tokens : Int)
  | purchase (user_id : String) (tokens : Int) (payment_token : String)
  | verify (machine_id user_id : String) (tokens : Int) (txn_id : Nat) (signature : String)
  | listHistory (user_id : String)
  | clearHistory (user_id : String)
  | registerMachine (machine_id name : String) (tokens_per_credit : Int)
  | pollPending (machine_id : String)

/-- State transition of one request, at wall-clock time `now`. -/
def step (H : String → String) (secret : String) (op : Op) (now : Nat)
    (s : ServerState) : ServerState :=
  match op with
  | .getWallet u => (get_wallet u s).2
  | .giveTokens u a => (give_tokens u a s).2
  | .pay u m tok => (app_pay u m tok now s).2
  | .purchase u tok p => (purchase_tokens u tok p now s).2
  | .verify m u tok i sig => (machine_verify H secret m u tok i sig now s).2
  | .listHistory u => let _ := get_history u s; s
  | .clearHistory u => clear_history u s
  | .registerMachine m n tpc => (register_machine m n tpc s).2
  | .pollPending m => (get_pending m now s).2

/-- A finite sequence of requests, each with its timestamp. -/
def run (H : String → String) (secret : String) (ops : List (Op × Nat))
    (s : ServerState) : ServerState :=
  ops.foldl (fun st p => step H secret p.1 p.2 st) s

/-! ### Basic lemmas about the table primitives -/

theorem findTxn_nil (i : Nat) : findTxn [] i = none := rfl

theorem findTxn_cons (t : Txn) (l : List Txn) (i : Nat) :
    findTxn (t :: l) i = if t.id = i then some t else findTxn l i := by
  simp only [findTxn, List.find?]
  by_cases h : t.id = i
  · simp [h]
  · simp [h, beq_false_of_ne h]

theorem findTxn_append (l₁ l₂ : List Txn) (i : Nat) :
    findTxn (l₁ ++ l₂) i =
      match findTxn l₁ i with
      | some t => some t
      | none => findTxn l₂ i := by
  induction l₁ with
  | nil => simp [findTxn_nil]
  | cons t l ih =>
    rw [List.cons_append, findTxn_cons, findTxn_cons]
    by_cases h : t.id = i <;> simp [h, ih]

theorem findTxn_eq_some (l : List Txn) (i : Nat) (t : Txn)
    (h : findTxn l i = some t) : t ∈ l ∧ t.id = i := by
  refine ⟨List.mem_of_find?_eq_some h, ?_⟩
  have := List.find?_some h
  exact eq_of_beq this

theorem findTxn_of_mem (l : List Txn) (t : Txn)
    (hnd : (l.map Txn.id).Nodup) (ht : t ∈ l) : findTxn l t.id = some t := by
  induction l with
  | nil => cases ht
  | cons a l ih =>
    rw [findTxn_cons]
    rcases List.mem_cons.mp ht with rfl | hmem
    · simp
    · have hne : a.id ≠ t.id := by
        intro he
        have : a.id ∈ l.map Txn.id := he ▸ List.mem_map_of_mem Txn.id hmem
        exact (List.nodup_cons.mp (by simpa using hnd)).1 this
      rw [if_neg hne]
      exact ih (List.nodup_cons.mp (by simpa using hnd)).2 hmem

theorem updateTxn_map_id (l : List Txn) (i : Nat) (f : Txn → Txn)
    (hf : ∀ t, (f t).id = t.id) :
    (updateTxn l i f).map Txn.id = l.map Txn.id := by
  unfold updateTxn
  rw [List.map_map]
  apply List.map_congr_left
  intro t _
  by_cases h : t.id = i <;> simp [h, hf]

theorem findTxn_updateTxn_self (l : List Txn) (i : Nat) (f : Txn → Txn)
    (hf : ∀ t, (f t).id = t.id) :
    findTxn (updateTxn l i f) i = (findTxn l i).map f := by
  induction l with
  | nil => rfl
  | cons t l ih =>
    unfold updateTxn at ih ⊢
    rw [List.map_cons]
    by_cases h : t.id = i
    · rw [if_pos h, findTxn_cons, findTxn_cons, hf, if_pos h, if_pos h]
      rfl
    · rw [if_neg h, findTxn_cons, findTxn_cons, if_neg h, if_neg h, ih]

theorem findTxn_updateTxn_ne (l : List Txn) (i j : Nat) (f : Txn → Txn)
    (hf : ∀ t, (f t).id = t.id) (h : j ≠ i) :
    findTxn (updateTxn l i f) j = findTxn l j := by
  induction l with
  | nil => rfl
  | cons t l ih =>
    unfold updateTxn at ih ⊢
    rw [List.map_cons]
    by_cases ht : t.id = i
    · have htj : t.id ≠ j := fun he => h (he.symm.trans ht)
      rw [if_pos ht, findTxn_cons, findTxn_cons, hf, if_neg htj, if_neg htj, ih]
    · rw [if_neg ht, findTxn_cons, findTxn_cons]
      by_cases hj : t.id = j
      · rw [if_pos hj, if_pos hj]
      · rw [if_neg hj, if_neg hj, ih]

/-! ### Status order and state invariants -/

/-- The monotone status order of the spec: a status may stay put, and only
`pending` may move. -/
def StatusLe (a b : Status) : Prop := a = .pending ∨ a = b

instance : DecidablePred (fun p : Status × Status => StatusLe p.1 p.2) :=
  fun _ => by unfold StatusLe; infer_instance

theorem StatusLe.refl (a : Status) : StatusLe a a := Or.inr rfl

theorem StatusLe.trans {a b c : Status} (h₁ : StatusLe a b) (h₂ : StatusLe b c) :
    StatusLe a c := by
  rcases h₁ with h₁ | rfl
  · exact Or.inl h₁
  · exact h₂

/-- Every transaction id already allocated is below the id counter. -/
def IdsBound (s : ServerState) : Prop := ∀ t ∈ s.txns, t.id < s.nextId

/-- Transaction primary keys are pairwise distinct. -/
def NodupIds (s : ServerState) : Prop := (s.txns.map Txn.id).Nodup

/-- The well-formedness invariant of the database that the id generator
(`uuid4` in the source, a counter here) maintains. -/
def Inv (s : ServerState) : Prop := IdsBound s ∧ NodupIds s

instance (s : ServerState) : Decidable (IdsBound s) := by
  unfold IdsBound; infer_instance

instance (s : ServerState) : Decidable (NodupIds s) := by
  unfold NodupIds; infer_instance

instance (s : ServerState) : Decidable (Inv s) := by
  unfold Inv; infer_instance

theorem inv_initState : Inv initState := by decide

/-! ### Branch lemmas for `machine_verify` -/

theorem machine_verify_eq_of_sig_fail {H : String → String} {secret mi ui sig : String}
    {tok : Int} {ti : Nat} {now : Nat} {s : ServerState}
    (h : verify_machine_signature H secret mi ui tok ti sig = false) :
    machine_verify H secret mi ui tok ti sig now s = (.unauthorized, s) := by
  unfold machine_verify
  rw [h]
  simp

theorem machine_verify_eq_of_notFound {H : String → String} {secret mi ui sig : String}
    {tok : Int} {ti : Nat} {now : Nat} {s : ServerState}
    (h : verify_machine_signature H secret mi ui tok ti sig = true)
    (hf : findTxn s.txns ti = none) :
    machine_verify H secret mi ui tok ti sig now s = (.notFound, s) := by
  unfold machine_verify
  rw [h, hf]
  simp

theorem machine_verify_eq_of_processed {H : String → String} {secret mi ui sig : String}
    {tok : Int} {ti : Nat} {now : Nat} {s : ServerState} {t : Txn}
    (h : verify_machine_signature H secret mi ui tok ti sig = true)
    (hf : findTxn s.txns ti = some t) (hst : t.status ≠ .pending) :
    machine_verify H secret mi ui tok ti sig now s = (.alreadyProcessed, s) := by
  unfold machine_verify
  rw [h, hf]
  simp [hst]

theorem machine_verify_eq_of_expired {H : String → String} {secret mi ui sig : String}
    {tok : Int} {ti : Nat} {now : Nat} {s : ServerState} {t : Txn}
    (h : verify_machine_signature H secret mi ui tok ti sig = true)
    (hf : findTxn s.txns ti = some t) (hst : t.status = .pending)
    (hage : ((now : Int) - (t.created_at : Int)) > 60) :
    machine_verify H secret mi ui tok ti sig now s =
      (.expired,
        { s with txns := updateTxn s.txns ti failTxn
                 balances := addBal s.balances t.user_id (t.tokens.natAbs : Int) }) := by
  unfold machine_verify
  rw [h, hf]
  simp [hst, hage]

theorem machine_verify_eq_of_fresh {H : String → String} {secret mi ui sig : String}
    {tok : Int} {ti : Nat} {now : Nat} {s : ServerState} {t : Txn}
    (h : verify_machine_signature H secret mi ui tok ti sig = true)
    (hf : findTxn s.txns ti = some t) (hst : t.status = .pending)
    (hage : ¬ ((now : Int) - (t.created_at : Int)) > 60)
    (hrate : machineRate s mi ≠ 0) :
    machine_verify H secret mi ui tok ti sig now s =
      (.verified (max 1 (Int.fdiv tok (machineRate s mi))) ti,
        { s with txns := updateTxn s.txns ti
                   (fun x => { x with status := .verified, machine_id := some mi }) }) := by
  unfold machine_verify
  rw [h, hf]
  simp [hst, hage, hrate]

theorem machine_verify_eq_of_fresh_crash {H : String → String} {secret mi ui sig : String}
    {tok : Int} {ti : Nat} {now : Nat} {s : ServerState} {t : Txn}
    (h : verify_machine_signature H secret mi ui tok ti sig = true)
    (hf : findTxn s.txns ti = some t) (hst : t.status = .pending)
    (hage : ¬ ((now : Int) - (t.created_at : Int)) > 60)
    (hrate : machineRate s mi = 0) :
    machine_verify H secret mi ui tok ti sig now s =
      (.crashed,
        { s with txns := updateTxn s.txns ti
                   (fun x => { x with status := .verified, machine_id := some mi }) }) := by
  unfold machine_verify
  rw [h, hf]
  simp [hst, hage, hrate]

theorem machine_verify_snd_of_fresh {H : String → String} {secret mi ui sig : String}
    {tok : Int} {ti : Nat} {now : Nat} {s : ServerState} {t : Txn}
    (h : verify_machine_signature H secret mi ui tok ti sig = true)
    (hf : findTxn s.txns ti = some t) (hst : t.status = .pending)
    (hage : ¬ ((now : Int) - (t.created_at : Int)) > 60) :
    (machine_verify H secret mi ui tok ti sig now s).2 =
      { s with txns := updateTxn s.txns ti
                 (fun x => { x with status := .verified, machine_id := some mi }) } := by
  by_cases hrate : machineRate s mi = 0
  · rw [machine_verify_eq_of_fresh_crash h hf hst hage hrate]
  · rw [machine_verify_eq_of_fresh h hf hst hage hrate]

theorem machine_verify_fst_ne_unauthorized {H : String → String} {secret mi ui sig : String}
    {tok : Int} {ti : Nat} {now : Nat} {s : ServerState}
    (h : verify_machine_signature H secret mi ui tok ti sig = true) :
    (machine_verify H secret mi ui tok ti sig now s).1 ≠ .unauthorized := by
  rcases hf : findTxn s.txns ti with _ | t
  · rw [machine_verify_eq_of_notFound h hf]
    simp
  · by_cases hst : t.status = .pending
    · by_cases hage : ((now : Int) - (t.created_at : Int)) > 60
      · rw [machine_verify_eq_of_expired h hf hst hage]
        simp
      · by_cases hrate : machineRate s mi = 0
        · rw [machine_verify_eq_of_fresh_crash h hf hst hage hrate]
          simp
        · rw [machine_verify_eq_of_fresh h hf hst hage hrate]
          simp
    · rw [machine_verify_eq_of_processed h hf hst]
      simp

/-! ### Sample data for concrete instantiations -/

/-- Sample pending reservation of 5 tokens on machine `M001`. -/
def samplePending : Txn :=
  { id := 0, user_id := "u", machine_id := some ("M001")
    machine_name := some ("Double Dragon"), tokens := -5
    txn_type := .spend, status := .pending, created_at := 0 }

/-- Sample state holding just the pending reservation. -/
def sampleStatePending : ServerState :=
  { balances := fun _ => 0, txns := [samplePending]
    machines := initState.machines, nextId := 1 }

/-- Sample state whose only transaction is already verified. -/
def sampleStateDone : ServerState :=
  { sampleStatePending with txns := [{ samplePending with status := .verified }] }

/-! ### C7 — Unauthorized exactly on signature mismatch -/

/-- C7: `machine_verify` fails with `Unauthorized` exactly when the
presented signature differs from the keyed hash of the concatenation
`machineId:userId:tokens:transactionId` with the shared secret prepended,
and a mismatch changes no state; the verifier is pure and accepts iff the
presented signature equals exactly that expected digest over exactly those
four request fields. -/
theorem C7_unauthorized_iff_mismatch
    (H : String → String) (secret mi ui sig : String) (tok : Int) (ti : Nat)
    (now : Nat) (s : ServerState) :
    (verify_machine_signature H secret mi ui tok ti sig = true
        ↔ sig = H (secret ++ sigMessage mi ui tok ti))
    ∧ ((machine_verify H secret mi ui tok ti sig now s).1 = .unauthorized
        ↔ sig ≠ H (secret ++ sigMessage mi ui tok ti))
    ∧ (sig ≠ H (secret ++ sigMessage mi ui tok ti) →
        (machine_verify H secret mi ui tok ti sig now s).2 = s) := by
  have hv : verify_machine_signature H secret mi ui tok ti sig = true
      ↔ sig = H (secret ++ sigMessage mi ui tok ti) := by
    unfold verify_machine_signature
    rw [beq_iff_eq, eq_comm]
  have hvf : verify_machine_signature H secret mi ui tok ti sig = false
      ↔ sig ≠ H (secret ++ sigMessage mi ui tok ti) := by
    rw [← Bool.not_eq_true, not_iff_not.mpr hv]
  refine ⟨hv, ?_, ?_⟩
  · constructor
    · intro hres
      by_contra hcon
      exact machine_verify_fst_ne_unauthorized (hv.mpr hcon) hres
    · intro hne
      rw [machine_verify_eq_of_sig_fail (hvf.mpr hne)]
  · intro hne
    rw [machine_verify_eq_of_sig_fail (hvf.mpr hne)]

/-- C7 at a concrete input: a presented signature that differs from the
expected digest is rejected without touching the state. -/
theorem C7_unauthorized_iff_mismatch_witness :
    (machine_verify (fun _ => "aa") "k" "M001" "u" 5 0 "bb" 0 sampleStatePending).2
      = sampleStatePending :=
  (C7_unauthorized_iff_mismatch (fun _ => "aa") "k" "M001" "u" "bb" 5 0 0
      sampleStatePending).2.2 (by decide)

/-! ### C2 — terminal transactions are untouchable -/

/-- C2: when the fetched transaction is no longer pending, `machine_verify`
changes no state at all (so a second claim moves no balance and never
refunds again), and whenever the presented signature is valid it reports
`AlreadyProcessed`. -/
theorem C2_terminal_txn_untouched
    (H : String → String) (secret mi ui sig : String) (tok : Int) (ti : Nat)
    (now : Nat) (s : ServerState) (t : Txn)
    (hf : findTxn s.txns ti = some t) (hst : t.status ≠ .pending) :
    (machine_verify H secret mi ui tok ti sig now s).2 = s
    ∧ (verify_machine_signature H secret mi ui tok ti sig = true →
        (machine_verify H secret mi ui tok ti sig now s).1 = .alreadyProcessed) := by
  by_cases hsig : verify_machine_signature H secret mi ui tok ti sig = true
  · rw [machine_verify_eq_of_processed hsig hf hst]
    exact ⟨rfl, fun _ => rfl⟩
  · rw [machine_verify_eq_of_sig_fail (Bool.eq_false_iff.mpr hsig)]
    exact ⟨rfl, fun h => absurd h hsig⟩

/-- C2 at a concrete input: claiming an already verified transaction with a
valid signature reports `AlreadyProcessed` and leaves the state intact. -/
theorem C2_terminal_txn_untouched_witness :
    (machine_verify (fun _ => "aa") "k" "M001" "u" 5 0 "aa" 0 sampleStateDone).2
        = sampleStateDone
    ∧ (verify_machine_signature (fun _ => "aa") "k" "M001" "u" 5 0 "aa" = true →
        (machine_verify (fun _ => "aa") "k" "M001" "u" 5 0 "aa" 0 sampleStateDone).1
          = .alreadyProcessed) :=
  C2_terminal_txn_untouched (fun _ => "aa") "k" "M001" "u" "aa" 5 0 0 sampleStateDone
    { samplePending with status := .verified } (by decide) (by decide)

/-! ### C5 — fresh claim with a valid signature -/

/-- Sample state: the pending reservation plus a registered machine `MZ`
whose `tokens_per_credit` is 0 (reachable in one request, see C9). -/
def sampleZeroRate : ServerState :=
  { sampleStatePending with
      machines := fun i => if i = "MZ" then some ⟨"MZ", 0⟩ else initState.machines i }

/-- C5 as stated is false at a registered rate-0 machine: the claim
promises returned credits for every fresh pending claim, but on machine
`MZ` with rate 0 the source evaluates `tokens // 0` and dies with an
unhandled `ZeroDivisionError` (HTTP 500) instead of returning credits —
the `crashed` outcome here — even though the status commit just before
the division persists. -/
theorem C5_counterexample :
    (machine_verify (fun x => x) "k" "MZ" "u" 5 0
        ("k" ++ sigMessage "MZ" "u" 5 0) 0 sampleZeroRate).1 = .crashed
    ∧ (machine_verify (fun x => x) "k" "MZ" "u" 5 0
        ("k" ++ sigMessage "MZ" "u" 5 0) 0 sampleZeroRate).1
      ≠ .verified (max 1 (Int.fdiv 5 (machineRate sampleZeroRate "MZ"))) 0 := by decide

/-- C5 amended: on a pending transaction at most 60 seconds old,
`machine_verify` with a correctly computed signature verifies the
transaction, stamps the request's machine id onto it, and — provided the
claimed machine's tokens-per-credit rate is nonzero (the default 1 covers
unregistered machines; a registered rate of 0 instead crashes the handler
after the commit) — returns `credits = max(1, tokens // rate)` by integer
division and leaves every balance unchanged. -/
theorem C5_fresh_valid_claim
    (H : String → String) (secret mi ui sig : String) (tok : Int) (ti : Nat)
    (now : Nat) (s : ServerState) (t : Txn)
    (hf : findTxn s.txns ti = some t)
    (hst : t.status = .pending)
    (hage : ((now : Int) - (t.created_at : Int)) ≤ 60)
    (hsig : sig = H (secret ++ sigMessage mi ui tok ti))
    (hrate : machineRate s mi ≠ 0) :
    (machine_verify H secret mi ui tok ti sig now s).1
        = .verified (max 1 (Int.fdiv tok (machineRate s mi))) ti
    ∧ ((machine_verify H secret mi ui tok ti sig now s).2).balances = s.balances
    ∧ findTxn ((machine_verify H secret mi ui tok ti sig now s).2).txns ti
        = some { t with status := .verified, machine_id := some mi } := by
  have hv : verify_machine_signature H secret mi ui tok ti sig = true := by
    unfold verify_machine_signature
    rw [hsig]
    exact beq_self_eq_true _
  rw [machine_verify_eq_of_fresh hv hf hst (not_lt.mpr hage) hrate]
  refine ⟨rfl, rfl, ?_⟩
  show findTxn (updateTxn s.txns ti _) ti = _
  rw [findTxn_updateTxn_self s.txns ti
      (fun x => { x with status := .verified, machine_id := some mi }) (fun _ => rfl), hf]
  rfl

/-- C5 at a concrete input: the sample reservation claimed at time 0 with
rate 1 yields 5 credits and a verified transaction. -/
theorem C5_fresh_valid_claim_witness :
    (machine_verify (fun x => x) "k" "M001" "u" 5 0
        ("k" ++ sigMessage "M001" "u" 5 0) 0 sampleStatePending).1
      = .verified (max 1 (Int.fdiv 5 (machineRate sampleStatePending "M001"))) 0
    ∧ ((machine_verify (fun x => x) "k" "M001" "u" 5 0
        ("k" ++ sigMessage "M001" "u" 5 0) 0 sampleStatePending).2).balances
      = sampleStatePending.balances
    ∧ findTxn ((machine_verify (fun x => x) "k" "M001" "u" 5 0
        ("k" ++ sigMessage "M001" "u" 5 0) 0 sampleStatePending).2).txns 0
      = some { samplePending with status := .verified, machine_id := some ("M001") } :=
  C5_fresh_valid_claim (fun x => x) "k" "M001" "u"
    ("k" ++ sigMessage "M001" "u" 5 0) 5 0 0 sampleStatePending samplePending
    (by decide) (by decide) (by decide) rfl (by decide)

/-! ### C10 — the request is never cross-checked against the stored row -/

/-- C10 as stated is false when the (never cross-checked) request machine
id names a registered rate-0 machine: with stored reservation (user "u",
machine "M001", 5 tokens) and a correctly signed request (user "v",
machine "MZ", 7 tokens) — every field different — the handler does not
succeed with credits but crashes in the credits division. -/
theorem C10_counterexample :
    ("v" ≠ samplePending.user_id ∧ some "MZ" ≠ samplePending.machine_id
      ∧ (7 : Int) ≠ (samplePending.tokens.natAbs : Int))
    ∧ (machine_verify (fun x => x) "k" "MZ" "v" 7 0
        ("k" ++ sigMessage "MZ" "v" 7 0) 0 sampleZeroRate).1 = .crashed := by decide

/-- C10 amended: `machine_verify` never cross-checks the request against
the stored row — a fresh pending reservation is claimed by any request
whose signature is computed over the request's own
`(machineId, userId, tokens)`, even when all three differ from the stored
user id, machine id and absolute delta, and the stored machine id is
overwritten with the request's `machineId`; provided the request's
machine id does not name a registered rate-0 machine (which crashes the
handler after that overwrite), the returned credits are computed from the
request's `tokens` value rather than the reservation's. -/
theorem C10_request_not_cross_checked
    (H : String → String) (secret mi ui sig : String) (tok : Int) (ti : Nat)
    (now : Nat) (s : ServerState) (t : Txn)
    (hf : findTxn s.txns ti = some t) (hst : t.status = .pending)
    (hage : ((now : Int) - (t.created_at : Int)) ≤ 60)
    (hsig : sig = H (secret ++ sigMessage mi ui tok ti))
    (hui : ui ≠ t.user_id) (hmi : some mi ≠ t.machine_id)
    (htok : tok ≠ (t.tokens.natAbs : Int))
    (hrate : machineRate s mi ≠ 0) :
    (machine_verify H secret mi ui tok ti sig now s).1
        = .verified (max 1 (Int.fdiv tok (machineRate s mi))) ti
    ∧ findTxn ((machine_verify H secret mi ui tok ti sig now s).2).txns ti
        = some { t with status := .verified, machine_id := some mi } := by
  have hv : verify_machine_signature H secret mi ui tok ti sig = true := by
    unfold verify_machine_signature
    rw [hsig]
    exact beq_self_eq_true _
  rw [machine_verify_eq_of_fresh hv hf hst (not_lt.mpr hage) hrate]
  refine ⟨rfl, ?_⟩
  show findTxn (updateTxn s.txns ti _) ti = _
  rw [findTxn_updateTxn_self s.txns ti
      (fun x => { x with status := .verified, machine_id := some mi }) (fun _ => rfl), hf]
  rfl

/-- C10 at a concrete input: the stored reservation is for user "u" on
machine "M001" over 5 tokens, yet a signed request for user "v" on machine
"MX" over 7 tokens claims it, earns credits from 7, and rebinds the stored
machine id to "MX". -/
theorem C10_request_not_cross_checked_witness :
    (machine_verify (fun x => x) "k" "MX" "v" 7 0
        ("k" ++ sigMessage "MX" "v" 7 0) 0 sampleStatePending).1
      = .verified (max 1 (Int.fdiv 7 (machineRate sampleStatePending "MX"))) 0
    ∧ findTxn ((machine_verify (fun x => x) "k" "MX" "v" 7 0
        ("k" ++ sigMessage "MX" "v" 7 0) 0 sampleStatePending).2).txns 0
      = some { samplePending with status := .verified, machine_id := some ("MX") } :=
  C10_request_not_cross_checked (fun x => x) "k" "MX" "v"
    ("k" ++ sigMessage "MX" "v" 7 0) 7 0 0 sampleStatePending samplePending
    (by decide) (by decide) (by decide) rfl (by decide) (by decide) (by decide)
    (by decide)

/-! ### C6 — reserveSpend characterization -/

/-- C6 as stated is false: the source never checks `tokens > 0`.  With a
zero or negative `tokens`, the sufficiency check `balance < tokens` passes
and a pending spend transaction is still created — here a request for
`-5` tokens "debits" a negative amount, growing the balance from 0 to 5
while creating a reservation. -/
theorem C6_counterexample :
    ¬ (0 < (-5 : Int))
    ∧ (app_pay "u" "M001" (-5) 0 initState).1 = .success 0 5 60
    ∧ ((app_pay "u" "M001" (-5) 0 initState).2).balances "u" = 5
    ∧ ((app_pay "u" "M001" (-5) 0 initState).2).txns.length = 1 := by decide

/-- C6 amended: `app_pay` debits the wallet and creates a pending spend
transaction exactly when both ids are nonempty and `balance ≥ tokens`,
with no positivity requirement on `tokens`; an insufficient balance fails
with `InsufficientTokens` reporting the current balance and the required
amount; and in every failing case (missing fields or insufficient balance)
the state — balances and transactions — is exactly unchanged. -/
theorem C6_reserve_spend_characterization
    (u m : String) (tok : Int) (now : Nat) (s : ServerState) :
    (u = "" ∨ m = "" → app_pay u m tok now s = (.missingFields, s))
    ∧ (¬ (u = "" ∨ m = "") → s.balances u < tok →
        app_pay u m tok now s = (.insufficient (s.balances u) tok, s))
    ∧ (¬ (u = "" ∨ m = "") → tok ≤ s.balances u →
        (app_pay u m tok now s).1 = .success s.nextId (s.balances u - tok) 60
        ∧ ((app_pay u m tok now s).2).balances u = s.balances u - tok
        ∧ (∀ v, v ≠ u → ((app_pay u m tok now s).2).balances v = s.balances v)
        ∧ ((app_pay u m tok now s).2).txns
            = s.txns ++ [{ id := s.nextId, user_id := u, machine_id := some m
                           machine_name := some (resolveMachineName s m)
                           tokens := -tok, txn_type := .spend
                           status := .pending, created_at := now }]
        ∧ ((app_pay u m tok now s).2).nextId = s.nextId + 1) := by
  refine ⟨fun h => ?_, fun h hlt => ?_, fun h hge => ?_⟩
  · unfold app_pay
    rw [if_pos h]
  · unfold app_pay
    rw [if_neg h, if_pos hlt]
  · unfold app_pay
    rw [if_neg h, if_neg (not_lt.mpr hge)]
    refine ⟨rfl, ?_, fun v hv => ?_, rfl, rfl⟩
    · show addBal s.balances u (-tok) u = _
      simp [addBal, sub_eq_add_neg]
    · show addBal s.balances u (-tok) v = _
      simp [addBal, hv]

/-- C6 amended at a concrete input: an insufficient request fails while
reporting balance 0 and requirement 3, changing nothing. -/
theorem C6_reserve_spend_characterization_witness :
    app_pay "u" "M001" 3 0 initState = (.insufficient (initState.balances "u") 3, initState) :=
  (C6_reserve_spend_characterization "u" "M001" 3 0 initState).2.1 (by decide) (by decide)

/-! ### C9 — nothing keeps a machine rate positive -/

/-- C9 names intended behavior the code does not implement:
`register_machine` stores `tokens_per_credit` without any positivity
check, so a registered machine can carry rate 0 after one exposed request.
On a subsequent valid claim naming that machine the source evaluates
`tokens // machine.tokens_per_credit` and raises `ZeroDivisionError`
(the embedding total-izes that division as `Int.fdiv _ 0 = 0`). -/
theorem C9_zero_rate_reachable :
    ((run (fun x => x) "k" [(Op.registerMachine "M" "M" 0, 0)] initState).machines "M")
      = some ⟨"M", 0⟩
    ∧ machineRate (run (fun x => x) "k" [(Op.registerMachine "M" "M" 0, 0)] initState) "M"
      = 0 := by decide

/-! ### C1 — the balance invariant -/

/-- C1 as stated is false: the exposed grant-tokens endpoint applies any
integer amount unchecked, so a single grant of `-10` to a fresh user
drives that balance to `-10 < 0`. -/
theorem C1_counterexample :
    (run (fun x => x) "k" [(Op.giveTokens "u" (-10), 0)] initState).balances "u" < 0 := by
  decide

/-- Request filter for the amended C1: the debug grant endpoint is only
used with nonnegative amounts. -/
def grantOk : Op → Bool
  | .giveTokens _ a => decide (0 ≤ a)
  | _ => true

theorem addBal_nonneg {b : String → Int} {u : String} {a : Int}
    (h : ∀ v, 0 ≤ b v) (ha : 0 ≤ b u + a) : ∀ v, 0 ≤ addBal b u a v := by
  intro v
  unfold addBal
  by_cases hv : v = u
  · rw [if_pos hv, hv]
    exact ha
  · rw [if_neg hv]
    exact h v

theorem sweepLoop_balances_nonneg (now : Nat) :
    ∀ (ts : List Txn) (s : ServerState) (acc : List PendEntry),
    (∀ v, 0 ≤ s.balances v) → ∀ v, 0 ≤ ((sweepLoop now ts s acc).2).balances v := by
  intro ts
  induction ts with
  | nil => intro s acc h v; exact h v
  | cons t rest ih =>
    intro s acc h v
    unfold sweepLoop
    by_cases hage : ((now : Int) - (t.created_at : Int)) > 60
    · rw [if_pos hage]
      refine ih _ _ (addBal_nonneg h ?_) v
      have := h t.user_id
      positivity
    · rw [if_neg hage]
      refine ih _ _ ?_ v
      exact h

theorem step_balances_nonneg (H : String → String) (secret : String) (op : Op)
    (now : Nat) (s : ServerState)
    (h : ∀ v, 0 ≤ s.balances v) (hop : grantOk op = true) :
    ∀ v, 0 ≤ (step H secret op now s).balances v := by
  cases op with
  | getWallet u => exact h
  | giveTokens u a =>
    have ha : 0 ≤ a := of_decide_eq_true hop
    show ∀ v, 0 ≤ ((give_tokens u a s).2).balances v
    unfold give_tokens
    by_cases hu : u = ""
    · rw [if_pos hu]
      exact h
    · rw [if_neg hu]
      exact addBal_nonneg h (by have := h u; positivity)
  | pay u m tok =>
    show ∀ v, 0 ≤ ((app_pay u m tok now s).2).balances v
    unfold app_pay
    by_cases hmiss : u = "" ∨ m = ""
    · rw [if_pos hmiss]
      exact h
    · rw [if_neg hmiss]
      by_cases hlt : s.balances u < tok
      · rw [if_pos hlt]
        exact h
      · rw [if_neg hlt]
        refine addBal_nonneg h ?_
        have := not_lt.mp hlt
        omega
  | purchase u tok p =>
    show ∀ v, 0 ≤ ((purchase_tokens u tok p now s).2).balances v
    unfold purchase_tokens
    by_cases hmiss : u = "" ∨ tok ≤ 0
    · rw [if_pos hmiss]
      exact h
    · rw [if_neg hmiss]
      refine addBal_nonneg h ?_
      have htok : 0 < tok := by
        rcases not_or.mp hmiss with ⟨_, h2⟩
        omega
      have := h u
      omega
  | verify mi ui tok ti sig =>
    show ∀ v, 0 ≤ ((machine_verify H secret mi ui tok ti sig now s).2).balances v
    by_cases hsig : verify_machine_signature H secret mi ui tok ti sig = true
    · rcases hf : findTxn s.txns ti with _ | t
      · rw [machine_verify_eq_of_notFound hsig hf]
        exact h
      · by_cases hst : t.status = .pending
        · by_cases hage : ((now : Int) - (t.created_at : Int)) > 60
          · rw [machine_verify_eq_of_expired hsig hf hst hage]
            refine addBal_nonneg h ?_
            have := h t.user_id
            positivity
          · rw [machine_verify_snd_of_fresh hsig hf hst hage]
            exact h
        · rw [machine_verify_eq_of_processed hsig hf hst]
          exact h
    · rw [machine_verify_eq_of_sig_fail (Bool.eq_false_iff.mpr hsig)]
      exact h
  | listHistory u => exact h
  | clearHistory u => exact h
  | registerMachine m n tpc =>
    show ∀ v, 0 ≤ ((register_machine m n tpc s).2).balances v
    unfold register_machine
    by_cases hm : m = ""
    · rw [if_pos hm]
      exact h
    · rw [if_neg hm]
      exact h
  | pollPending m => exact sweepLoop_balances_nonneg now _ s [] h

/-- C1 amended: starting from any state with nonnegative balances (the
empty startup state in particular), after every finite sequence of exposed
operations in which each grant-tokens amount is nonnegative, every wallet
balance is still ≥ 0.  (The counterexample forces exactly the grant-amount
restriction: the debug grant endpoint applies negative amounts
unchecked.) -/
theorem C1_balances_nonneg
    (H : String → String) (secret : String) (ops : List (Op × Nat))
    (s : ServerState) (h0 : ∀ v, 0 ≤ s.balances v)
    (hg : ∀ p ∈ ops, grantOk p.1 = true) (u : String) :
    0 ≤ (run H secret ops s).balances u := by
  induction ops generalizing s with
  | nil => exact h0 u
  | cons p ops ih =>
    show 0 ≤ (run H secret ops (step H secret p.1 p.2 s)).balances u
    refine ih _ (step_balances_nonneg H secret p.1 p.2 s h0 ?_) ?_
    · exact hg p (List.mem_cons_self p ops)
    · intro q hq
      exact hg q (List.mem_cons_of_mem p hq)

/-- C1 amended at a concrete trace: grant 10, reserve 3, claim it, then
poll; the balance stays nonnegative. -/
theorem C1_balances_nonneg_witness :
    0 ≤ (run (fun x => x) "k"
          [(Op.giveTokens "u" 10, 0), (Op.pay "u" "M001" 3, 1),
           (Op.verify "M001" "u" 3 0 ("k" ++ sigMessage "M001" "u" 3 0), 2),
           (Op.pollPending "M001", 3)]
          initState).balances "u" :=
  C1_balances_nonneg (fun x => x) "k"
    [(Op.giveTokens "u" 10, 0), (Op.pay "u" "M001" 3, 1),
     (Op.verify "M001" "u" 3 0 ("k" ++ sigMessage "M001" "u" 3 0), 2),
     (Op.pollPending "M001", 3)]
    initState (fun _ => le_refl 0) (by decide) "u"

/-! ### C3 — status monotonicity: invariant preservation machinery -/

theorem run_nil (H : String → String) (secret : String) (s : ServerState) :
    run H secret [] s = s := rfl

theorem run_cons (H : String → String) (secret : String) (p : Op × Nat)
    (ops : List (Op × Nat)) (s : ServerState) :
    run H secret (p :: ops) s = run H secret ops (step H secret p.1 p.2 s) := rfl

theorem findTxn_eq_none_iff (l : List Txn) (i : Nat) :
    findTxn l i = none ↔ ∀ t ∈ l, t.id ≠ i := by
  unfold findTxn
  rw [List.find?_eq_none]
  constructor
  · intro h t ht he
    exact h t ht (by rw [he]; exact beq_self_eq_true i)
  · intro h t ht hbeq
    exact h t ht (eq_of_beq hbeq)

theorem eq_of_mem_of_id_eq {l : List Txn} {a b : Txn}
    (hnd : (l.map Txn.id).Nodup) (ha : a ∈ l) (hb : b ∈ l) (hid : a.id = b.id) :
    a = b := by
  have h1 := findTxn_of_mem l a hnd ha
  have h2 := findTxn_of_mem l b hnd hb
  rw [hid] at h1
  rw [h1] at h2
  exact Option.some_injective _ h2

theorem inv_of_txns_eq {s s' : ServerState} (h : Inv s)
    (ht : s'.txns.map Txn.id = s.txns.map Txn.id) (hn : s'.nextId = s.nextId) :
    Inv s' := by
  constructor
  · intro t htm
    have hmm : t.id ∈ s'.txns.map Txn.id := List.mem_map_of_mem Txn.id htm
    rw [ht] at hmm
    rcases List.mem_map.mp hmm with ⟨t0, ht0, hid⟩
    rw [hn, ← hid]
    exact h.1 t0 ht0
  · unfold NodupIds
    rw [ht]
    exact h.2

theorem inv_of_txns_sublist {s s' : ServerState} (h : Inv s)
    (ht : s'.txns.Sublist s.txns) (hn : s'.nextId = s.nextId) : Inv s' := by
  constructor
  · intro t htm
    rw [hn]
    exact h.1 t (ht.subset htm)
  · exact h.2.sublist (ht.map Txn.id)

theorem inv_of_txns_append {s s' : ServerState} (h : Inv s) {t : Txn}
    (ht : s'.txns = s.txns ++ [t]) (hid : t.id = s.nextId)
    (hn : s'.nextId = s.nextId + 1) : Inv s' := by
  constructor
  · intro x hx
    rw [ht] at hx
    rw [hn]
    rcases List.mem_append.mp hx with hx | hx
    · exact Nat.lt_succ_of_lt (h.1 x hx)
    · rw [List.mem_singleton.mp hx, hid]
      exact Nat.lt_succ_self _
  · unfold NodupIds
    rw [ht, List.map_append, List.map_singleton]
    rw [List.nodup_append]
    refine ⟨h.2, List.nodup_singleton _, ?_⟩
    intro a ha hb
    rw [List.mem_singleton] at hb
    rcases List.mem_map.mp ha with ⟨x, hx, hxa⟩
    have hlt := h.1 x hx
    rw [hxa] at hlt
    rw [hb, hid] at hlt
    exact absurd hlt (lt_irrefl _)

theorem sweepLoop_map_id_nextId (now : Nat) :
    ∀ (ts : List Txn) (s : ServerState) (acc : List PendEntry),
    ((sweepLoop now ts s acc).2).txns.map Txn.id = s.txns.map Txn.id
    ∧ ((sweepLoop now ts s acc).2).nextId = s.nextId
    ∧ ((sweepLoop now ts s acc).2).machines = s.machines := by
  intro ts
  induction ts with
  | nil => intro s acc; exact ⟨rfl, rfl, rfl⟩
  | cons t rest ih =>
    intro s acc
    unfold sweepLoop
    by_cases hage : ((now : Int) - (t.created_at : Int)) > 60
    · rw [if_pos hage]
      rcases ih _ acc with ⟨h1, h2, h3⟩
      refine ⟨?_, h2, h3⟩
      rw [h1]
      exact updateTxn_map_id _ _ _ (fun _ => rfl)
    · rw [if_neg hage]
      rcases ih _ (⟨t.id, (t.tokens.natAbs : Int), t.user_id⟩ :: acc) with ⟨h1, h2, h3⟩
      refine ⟨?_, h2, h3⟩
      rw [h1]
      exact updateTxn_map_id _ _ _ (fun _ => rfl)

theorem step_preserves_Inv (H : String → String) (secret : String) (op : Op)
    (now : Nat) (s : ServerState) (h : Inv s) : Inv (step H secret op now s) := by
  cases op with
  | getWallet u => exact h
  | giveTokens u a =>
    show Inv (give_tokens u a s).2
    unfold give_tokens
    by_cases hu : u = ""
    · rw [if_pos hu]
      exact h
    · rw [if_neg hu]
      exact inv_of_txns_eq h rfl rfl
  | pay u m tok =>
    show Inv (app_pay u m tok now s).2
    unfold app_pay
    by_cases hmiss : u = "" ∨ m = ""
    · rw [if_pos hmiss]
      exact h
    · rw [if_neg hmiss]
      by_cases hlt : s.balances u < tok
      · rw [if_pos hlt]
        exact h
      · rw [if_neg hlt]
        exact inv_of_txns_append h rfl rfl rfl
  | purchase u tok p =>
    show Inv (purchase_tokens u tok p now s).2
    unfold purchase_tokens
    by_cases hmiss : u = "" ∨ tok ≤ 0
    · rw [if_pos hmiss]
      exact h
    · rw [if_neg hmiss]
      exact inv_of_txns_append h rfl rfl rfl
  | verify mi ui tok ti sig =>
    show Inv (machine_verify H secret mi ui tok ti sig now s).2
    by_cases hsig : verify_machine_signature H secret mi ui tok ti sig = true
    · rcases hf : findTxn s.txns ti with _ | t
      · rw [machine_verify_eq_of_notFound hsig hf]
        exact h
      · by_cases hst : t.status = .pending
        · by_cases hage : ((now : Int) - (t.created_at : Int)) > 60
          · rw [machine_verify_eq_of_expired hsig hf hst hage]
            exact inv_of_txns_eq h (updateTxn_map_id _ _ _ (fun _ => rfl)) rfl
          · rw [machine_verify_snd_of_fresh hsig hf hst hage]
            exact inv_of_txns_eq h (updateTxn_map_id _ _ _ (fun _ => rfl)) rfl
        · rw [machine_verify_eq_of_processed hsig hf hst]
          exact h
    · rw [machine_verify_eq_of_sig_fail (Bool.eq_false_iff.mpr hsig)]
      exact h
  | listHistory u => exact h
  | clearHistory u =>
    exact inv_of_txns_sublist h (List.filter_sublist _) rfl
  | registerMachine m n tpc =>
    show Inv (register_machine m n tpc s).2
    unfold register_machine
    by_cases hm : m = ""
    · rw [if_pos hm]
      exact h
    · rw [if_neg hm]
      exact inv_of_txns_eq h rfl rfl
  | pollPending m =>
    exact inv_of_txns_eq h (sweepLoop_map_id_nextId now _ s []).1
      (sweepLoop_map_id_nextId now _ s []).2.1

theorem run_preserves_Inv (H : String → String) (secret : String)
    (ops : List (Op × Nat)) (s : ServerState) (h : Inv s) :
    Inv (run H secret ops s) := by
  induction ops generalizing s with
  | nil => exact h
  | cons p ops ih =>
    rw [run_cons]
    exact ih _ (step_preserves_Inv H secret p.1 p.2 s h)

theorem findTxn_updateTxn_none {l : List Txn} {i j : Nat} {f : Txn → Txn}
    (hf : ∀ t, (f t).id = t.id) (h : findTxn l i = none) :
    findTxn (updateTxn l j f) i = none := by
  by_cases hij : i = j
  · rw [hij] at h ⊢
    rw [findTxn_updateTxn_self l j f hf, h]
    rfl
  · rw [findTxn_updateTxn_ne l j i f hf hij, h]

theorem sweepLoop_findTxn_none (now : Nat) :
    ∀ (ts : List Txn) (s : ServerState) (acc : List PendEntry) (i : Nat),
    findTxn s.txns i = none →
    findTxn ((sweepLoop now ts s acc).2).txns i = none := by
  intro ts
  induction ts with
  | nil => intro s acc i h; exact h
  | cons t rest ih =>
    intro s acc i h
    unfold sweepLoop
    by_cases hage : ((now : Int) - (t.created_at : Int)) > 60
    · rw [if_pos hage]
      exact ih _ _ i (findTxn_updateTxn_none (fun _ => rfl) h)
    · rw [if_neg hage]
      exact ih _ _ i (findTxn_updateTxn_none (fun _ => rfl) h)

theorem step_nextId_le (H : String → String) (secret : String) (op : Op)
    (now : Nat) (s : ServerState) : s.nextId ≤ (step H secret op now s).nextId := by
  cases op with
  | getWallet u => exact le_refl _
  | giveTokens u a =>
    show s.nextId ≤ ((give_tokens u a s).2).nextId
    unfold give_tokens
    by_cases hu : u = ""
    · rw [if_pos hu]
    · rw [if_neg hu]
  | pay u m tok =>
    show s.nextId ≤ ((app_pay u m tok now s).2).nextId
    unfold app_pay
    by_cases hmiss : u = "" ∨ m = ""
    · rw [if_pos hmiss]
    · rw [if_neg hmiss]
      by_cases hlt : s.balances u < tok
      · rw [if_pos hlt]
      · rw [if_neg hlt]
        exact Nat.le_succ _
  | purchase u tok p =>
    show s.nextId ≤ ((purchase_tokens u tok p now s).2).nextId
    unfold purchase_tokens
    by_cases hmiss : u = "" ∨ tok ≤ 0
    · rw [if_pos hmiss]
    · rw [if_neg hmiss]
      exact Nat.le_succ _
  | verify mi ui tok ti sig =>
    show s.nextId ≤ ((machine_verify H secret mi ui tok ti sig now s).2).nextId
    by_cases hsig : verify_machine_signature H secret mi ui tok ti sig = true
    · rcases hf : findTxn s.txns ti with _ | t
      · rw [machine_verify_eq_of_notFound hsig hf]
      · by_cases hst : t.status = .pending
        · by_cases hage : ((now : Int) - (t.created_at : Int)) > 60
          · rw [machine_verify_eq_of_expired hsig hf hst hage]
          · rw [machine_verify_snd_of_fresh hsig hf hst hage]
        · rw [machine_verify_eq_of_processed hsig hf hst]
    · rw [machine_verify_eq_of_sig_fail (Bool.eq_false_iff.mpr hsig)]
  | listHistory u => exact le_refl _
  | clearHistory u => exact le_refl _
  | registerMachine m n tpc =>
    show s.nextId ≤ ((register_machine m n tpc s).2).nextId
    unfold register_machine
    by_cases hm : m = ""
    · rw [if_pos hm]
    · rw [if_neg hm]
  | pollPending m =>
    show s.nextId ≤ ((get_pending m now s).2).nextId
    unfold get_pending
    rw [(sweepLoop_map_id_nextId now _ s []).2.1]

theorem step_findTxn_none (H : String → String) (secret : String) (op : Op)
    (now : Nat) (s : ServerState) (i : Nat) (hi : i < s.nextId)
    (h : findTxn s.txns i = none) :
    findTxn (step H secret op now s).txns i = none := by
  have happ : ∀ t : Txn, t.id = s.nextId →
      findTxn (s.txns ++ [t]) i = none := by
    intro t ht
    rw [findTxn_append, h, findTxn_cons]
    rw [if_neg (by omega)]
    rfl
  cases op with
  | getWallet u => exact h
  | giveTokens u a =>
    show findTxn ((give_tokens u a s).2).txns i = none
    unfold give_tokens
    by_cases hu : u = ""
    · rw [if_pos hu]; exact h
    · rw [if_neg hu]; exact h
  | pay u m tok =>
    show findTxn ((app_pay u m tok now s).2).txns i = none
    unfold app_pay
    by_cases hmiss : u = "" ∨ m = ""
    · rw [if_pos hmiss]; exact h
    · rw [if_neg hmiss]
      by_cases hlt : s.balances u < tok
      · rw [if_pos hlt]; exact h
      · rw [if_neg hlt]
        exact happ _ rfl
  | purchase u tok p =>
    show findTxn ((purchase_tokens u tok p now s).2).txns i = none
    unfold purchase_tokens
    by_cases hmiss : u = "" ∨ tok ≤ 0
    · rw [if_pos hmiss]; exact h
    · rw [if_neg hmiss]
      exact happ _ rfl
  | verify mi ui tok ti sig =>
    show findTxn ((machine_verify H secret mi ui tok ti sig now s).2).txns i = none
    by_cases hsig : verify_machine_signature H secret mi ui tok ti sig = true
    · rcases hf : findTxn s.txns ti with _ | t
      · rw [machine_verify_eq_of_notFound hsig hf]; exact h
      · by_cases hst : t.status = .pending
        · by_cases hage : ((now : Int) - (t.created_at : Int)) > 60
          · rw [machine_verify_eq_of_expired hsig hf hst hage]
            exact findTxn_updateTxn_none (fun _ => rfl) h
          · rw [machine_verify_snd_of_fresh hsig hf hst hage]
            exact findTxn_updateTxn_none (fun _ => rfl) h
        · rw [machine_verify_eq_of_processed hsig hf hst]; exact h
    · rw [machine_verify_eq_of_sig_fail (Bool.eq_false_iff.mpr hsig)]; exact h
  | listHistory u => exact h
  | clearHistory u =>
    show findTxn (s.txns.filter _) i = none
    rw [findTxn_eq_none_iff] at h ⊢
    intro t ht
    exact h t ((List.filter_sublist _).subset ht)
  | registerMachine m n tpc =>
    show findTxn ((register_machine m n tpc s).2).txns i = none
    unfold register_machine
    by_cases hm : m = ""
    · rw [if_pos hm]; exact h
    · rw [if_neg hm]; exact h
  | pollPending m => exact sweepLoop_findTxn_none now _ s [] i h

theorem run_findTxn_none (H : String → String) (secret : String)
    (ops : List (Op × Nat)) (s : ServerState) (i : Nat) (hi : i < s.nextId)
    (h : findTxn s.txns i = none) :
    findTxn (run H secret ops s).txns i = none := by
  induction ops generalizing s with
  | nil => exact h
  | cons p ops ih =>
    rw [run_cons]
    exact ih _ (lt_of_lt_of_le hi (step_nextId_le H secret p.1 p.2 s))
      (step_findTxn_none H secret p.1 p.2 s i hi h)

theorem sweepLoop_statusLe (now : Nat) :
    ∀ (ts : List Txn) (s : ServerState) (acc : List PendEntry),
    (ts.map Txn.id).Nodup →
    (∀ r ∈ ts, ∃ r0, findTxn s.txns r.id = some r0 ∧ r0.status = .pending) →
    ∀ (i : Nat) (t t' : Txn), findTxn s.txns i = some t →
      findTxn ((sweepLoop now ts s acc).2).txns i = some t' →
      StatusLe t.status t'.status := by
  intro ts
  induction ts with
  | nil =>
    intro s acc _ _ i t t' hf hf'
    unfold sweepLoop at hf'
    rw [hf] at hf'
    rw [Option.some_injective _ hf']
    exact StatusLe.refl _
  | cons r rest ih =>
    intro s acc hnd hpend i t t' hf hf'
    rw [List.map_cons, List.nodup_cons] at hnd
    unfold sweepLoop at hf'
    by_cases hir : i = r.id
    · rcases hpend r (List.mem_cons_self r rest) with ⟨r0, hr0, hr0p⟩
      rw [hir, hr0] at hf
      have hrt : r0 = t := Option.some_injective _ hf
      exact Or.inl (hrt ▸ hr0p)
    · have hrest : ∀ r' ∈ rest, r'.id ≠ r.id := by
        intro r' hr' he
        exact hnd.1 (he ▸ List.mem_map_of_mem Txn.id hr')
      by_cases hage : ((now : Int) - (r.created_at : Int)) > 60
      · rw [if_pos hage] at hf'
        refine ih _ _ hnd.2 ?_ i t t' ?_ hf'
        · intro r' hr'
          rcases hpend r' (List.mem_cons_of_mem r hr') with ⟨r0, hr0, hr0p⟩
          refine ⟨r0, ?_, hr0p⟩
          show findTxn (updateTxn s.txns r.id failTxn) r'.id = some r0
          rw [findTxn_updateTxn_ne s.txns r.id r'.id failTxn (fun _ => rfl) (hrest r' hr'), hr0]
        · show findTxn (updateTxn s.txns r.id failTxn) i = some t
          rw [findTxn_updateTxn_ne s.txns r.id i failTxn (fun _ => rfl) hir, hf]
      · rw [if_neg hage] at hf'
        refine ih _ _ hnd.2 ?_ i t t' ?_ hf'
        · intro r' hr'
          rcases hpend r' (List.mem_cons_of_mem r hr') with ⟨r0, hr0, hr0p⟩
          refine ⟨r0, ?_, hr0p⟩
          show findTxn (updateTxn s.txns r.id verifyTxn) r'.id = some r0
          rw [findTxn_updateTxn_ne s.txns r.id r'.id verifyTxn (fun _ => rfl) (hrest r' hr'), hr0]
        · show findTxn (updateTxn s.txns r.id verifyTxn) i = some t
          rw [findTxn_updateTxn_ne s.txns r.id i verifyTxn (fun _ => rfl) hir, hf]

theorem pendingSorted_nodup_ids (m : String) (s : ServerState) (h : NodupIds s) :
    ((pendingSorted m s).map Txn.id).Nodup := by
  have hperm : List.Perm (pendingSorted m s)
      (s.txns.filter (fun t => decide (t.machine_id = some m ∧ t.status = .pending))) :=
    List.perm_insertionSort _ _
  refine ((hperm.map Txn.id).nodup_iff).mpr ?_
  exact h.sublist ((List.filter_sublist _).map Txn.id)

theorem pendingSorted_mem (m : String) (s : ServerState) {t : Txn}
    (ht : t ∈ pendingSorted m s) :
    t ∈ s.txns ∧ t.machine_id = some m ∧ t.status = .pending := by
  have hperm : List.Perm (pendingSorted m s)
      (s.txns.filter (fun t => decide (t.machine_id = some m ∧ t.status = .pending))) :=
    List.perm_insertionSort _ _
  have := hperm.mem_iff.mp ht
  rcases List.mem_filter.mp this with ⟨hmem, hpred⟩
  exact ⟨hmem, of_decide_eq_true hpred⟩

theorem step_statusLe (H : String → String) (secret : String) (op : Op)
    (now : Nat) (s : ServerState) (h : Inv s) :
    ∀ (i : Nat) (t t' : Txn), findTxn s.txns i = some t →
      findTxn (step H secret op now s).txns i = some t' →
      StatusLe t.status t'.status := by
  have hsame : ∀ (s' : ServerState), s'.txns = s.txns →
      ∀ (i : Nat) (t t' : Txn), findTxn s.txns i = some t →
        findTxn s'.txns i = some t' → StatusLe t.status t'.status := by
    intro s' hs i t t' hf hf'
    rw [hs, hf] at hf'
    rw [Option.some_injective _ hf']
    exact StatusLe.refl _
  have happ : ∀ (s' : ServerState) (x : Txn), s'.txns = s.txns ++ [x] →
      ∀ (i : Nat) (t t' : Txn), findTxn s.txns i = some t →
        findTxn s'.txns i = some t' → StatusLe t.status t'.status := by
    intro s' x hs i t t' hf hf'
    rw [hs, findTxn_append, hf] at hf'
    rw [Option.some_injective _ hf']
    exact StatusLe.refl _
  cases op with
  | getWallet u => exact hsame s rfl
  | giveTokens u a =>
    refine hsame _ ?_
    show ((give_tokens u a s).2).txns = s.txns
    unfold give_tokens
    by_cases hu : u = ""
    · rw [if_pos hu]
    · rw [if_neg hu]
  | pay u m tok =>
    intro i t t' hf hf'
    revert hf'
    show findTxn ((app_pay u m tok now s).2).txns i = some t' → _
    unfold app_pay
    by_cases hmiss : u = "" ∨ m = ""
    · rw [if_pos hmiss]
      exact fun hf' => hsame s rfl i t t' hf hf'
    · rw [if_neg hmiss]
      by_cases hlt : s.balances u < tok
      · rw [if_pos hlt]
        exact fun hf' => hsame s rfl i t t' hf hf'
      · rw [if_neg hlt]
        exact fun hf' => happ _ _ rfl i t t' hf hf'
  | purchase u tok p =>
    intro i t t' hf hf'
    revert hf'
    show findTxn ((purchase_tokens u tok p now s).2).txns i = some t' → _
    unfold purchase_tokens
    by_cases hmiss : u = "" ∨ tok ≤ 0
    · rw [if_pos hmiss]
      exact fun hf' => hsame s rfl i t t' hf hf'
    · rw [if_neg hmiss]
      exact fun hf' => happ _ _ rfl i t t' hf hf'
  | verify mi ui tok ti sig =>
    intro i t t' hf hf'
    revert hf'
    show findTxn ((machine_verify H secret mi ui tok ti sig now s).2).txns i = some t' → _
    by_cases hsig : verify_machine_signature H secret mi ui tok ti sig = true
    · rcases hft : findTxn s.txns ti with _ | x
      · rw [machine_verify_eq_of_notFound hsig hft]
        exact fun hf' => hsame s rfl i t t' hf hf'
      · by_cases hst : x.status = .pending
        · have hupd : ∀ (f : Txn → Txn), (∀ y, (f y).id = y.id) →
              findTxn (updateTxn s.txns ti f) i = some t' → StatusLe t.status t'.status := by
            intro f hfid hf'
            by_cases hit : i = ti
            · rw [hit, hft] at hf
              have hxt : x = t := Option.some_injective _ hf
              exact Or.inl (hxt ▸ hst)
            · rw [findTxn_updateTxn_ne _ _ _ _ hfid hit, hf] at hf'
              rw [Option.some_injective _ hf']
              exact StatusLe.refl _
          by_cases hage : ((now : Int) - (x.created_at : Int)) > 60
          · rw [machine_verify_eq_of_expired hsig hft hst hage]
            exact hupd _ (fun _ => rfl)
          · rw [machine_verify_snd_of_fresh hsig hft hst hage]
            exact hupd _ (fun _ => rfl)
        · rw [machine_verify_eq_of_processed hsig hft hst]
          exact fun hf' => hsame s rfl i t t' hf hf'
    · rw [machine_verify_eq_of_sig_fail (Bool.eq_false_iff.mpr hsig)]
      exact fun hf' => hsame s rfl i t t' hf hf'
  | listHistory u => exact hsame s rfl
  | clearHistory u =>
    intro i t t' hf hf'
    have h1 := findTxn_eq_some _ _ _ hf
    have h2 := findTxn_eq_some _ _ _ hf'
    have h2m : t' ∈ s.txns := (List.filter_sublist _).subset h2.1
    rw [eq_of_mem_of_id_eq h.2 h1.1 h2m (h1.2.trans h2.2.symm)]
    exact StatusLe.refl _
  | registerMachine m n tpc =>
    refine hsame _ ?_
    show ((register_machine m n tpc s).2).txns = s.txns
    unfold register_machine
    by_cases hm : m = ""
    · rw [if_pos hm]
    · rw [if_neg hm]
  | pollPending m =>
    intro i t t' hf hf'
    refine sweepLoop_statusLe now (pendingSorted m s) s []
      (pendingSorted_nodup_ids m s h.2) ?_ i t t' hf hf'
    intro r hr
    rcases pendingSorted_mem m s hr with ⟨hmem, _, hp⟩
    exact ⟨r, findTxn_of_mem _ _ h.2 hmem, hp⟩

/-- C3: along every trace of exposed operations from a well-formed state,
a transaction's status only ever moves out of `pending`; a transaction
observed `verified` or `failed` is never changed again by any operation. -/
theorem C3_status_monotone
    (H : String → String) (secret : String) (ops : List (Op × Nat))
    (s : ServerState) (h : Inv s) (i : Nat) (t t' : Txn)
    (hf : findTxn s.txns i = some t)
    (hf' : findTxn (run H secret ops s).txns i = some t') :
    StatusLe t.status t'.status := by
  induction ops generalizing s t with
  | nil =>
    rw [run_nil, hf] at hf'
    rw [Option.some_injective _ hf']
    exact StatusLe.refl _
  | cons p ops ih =>
    rw [run_cons] at hf'
    have hstep := step_preserves_Inv H secret p.1 p.2 s h
    rcases hmid : findTxn (step H secret p.1 p.2 s).txns i with _ | tm
    · have hi : i < (step H secret p.1 p.2 s).nextId := by
        have h1 := findTxn_eq_some _ _ _ hf
        exact lt_of_lt_of_le (h1.2 ▸ h.1 t h1.1) (step_nextId_le H secret p.1 p.2 s)
      have := run_findTxn_none H secret ops _ i hi hmid
      rw [this] at hf'
      exact absurd hf' (by simp)
    · exact (step_statusLe H secret p.1 p.2 s h i t tm hf hmid).trans
        (ih _ hstep tm hmid hf')

/-- C3 at a concrete trace: the sample pending reservation is verified by
a signed claim, a pending-to-verified move, which `StatusLe` permits. -/
theorem C3_status_monotone_witness :
    StatusLe samplePending.status
      ({ samplePending with status := .verified, machine_id := some ("M001") } : Txn).status :=
  C3_status_monotone (fun x => x) "k"
    [(Op.verify "M001" "u" 5 0 ("k" ++ sigMessage "M001" "u" 5 0), 0)]
    sampleStatePending (by decide) 0 samplePending
    { samplePending with status := .verified, machine_id := some ("M001") }
    (by decide) (by decide)

/-! ### C4 — expired reservations refund exactly the reserved amount -/

/-- Sample state with a 10-token balance everywhere and no transactions. -/
def sampleRich : ServerState :=
  { balances := fun _ => 10, txns := [], machines := initState.machines, nextId := 0 }

theorem pendingSorted_eq_single {m : String} {s1 : ServerState} {l : List Txn} {x : Txn}
    (hl : s1.txns = l ++ [x])
    (hnp : ∀ t ∈ l, ¬ (t.machine_id = some m ∧ t.status = .pending))
    (hx : x.machine_id = some m) (hxs : x.status = .pending) :
    pendingSorted m s1 = [x] := by
  unfold pendingSorted
  rw [hl, List.filter_append]
  have h1 : l.filter (fun t => decide (t.machine_id = some m ∧ t.status = .pending)) = [] := by
    rw [List.filter_eq_nil_iff]
    intro a ha
    simp only [decide_eq_true_eq]
    exact hnp a ha
  have h2 : [x].filter (fun t => decide (t.machine_id = some m ∧ t.status = .pending))
      = [x] := by
    simp [hx, hxs]
  rw [h1, h2]
  rfl

/-- C4: a reservation of `N > 0` tokens first claimed more than 60 seconds
after creation is self-healing on both claim paths: the late signed
`verifyClaim` reports `Expired`, and a `sweepExpiredPending` poll for the
machine omits the transaction; each path sets the status to `failed` and
credits exactly `N` back, so the balance equals its pre-reservation
value. -/
theorem C4_late_claim_refunds
    (H : String → String) (secret u m : String) (N : Int)
    (now0 now1 : Nat) (s : ServerState)
    (hu : u ≠ "") (hm : m ≠ "")
    (hN : 0 < N) (hbal : N ≤ s.balances u)
    (hfresh : ∀ t ∈ s.txns, t.id ≠ s.nextId)
    (hnp : ∀ t ∈ s.txns, ¬ (t.machine_id = some m ∧ t.status = .pending))
    (hlate : ((now1 : Int) - (now0 : Int)) > 60) :
    (app_pay u m N now0 s).1 = .success s.nextId (s.balances u - N) 60
    ∧ ((app_pay u m N now0 s).2).balances u = s.balances u - N
    ∧ ((machine_verify H secret m u N s.nextId
          (H (secret ++ sigMessage m u N s.nextId)) now1 (app_pay u m N now0 s).2).1
        = .expired
      ∧ ((machine_verify H secret m u N s.nextId
          (H (secret ++ sigMessage m u N s.nextId)) now1 (app_pay u m N now0 s).2).2).balances u
        = s.balances u
      ∧ (findTxn ((machine_verify H secret m u N s.nextId
          (H (secret ++ sigMessage m u N s.nextId)) now1 (app_pay u m N now0 s).2).2).txns
            s.nextId).map Txn.status = some .failed)
    ∧ ((get_pending m now1 (app_pay u m N now0 s).2).1 = []
      ∧ ((get_pending m now1 (app_pay u m N now0 s).2).2).balances u = s.balances u
      ∧ (findTxn ((get_pending m now1 (app_pay u m N now0 s).2).2).txns s.nextId).map
          Txn.status = some .failed) := by
  have hmiss : ¬ (u = "" ∨ m = "") := not_or.mpr ⟨hu, hm⟩
  have hlt : ¬ s.balances u < N := not_lt.mpr hbal
  have hpay : app_pay u m N now0 s =
      (.success s.nextId (s.balances u - N) 60,
        { s with balances := addBal s.balances u (-N)
                 txns := s.txns ++ [{ id := s.nextId, user_id := u, machine_id := some m
                                      machine_name := some (resolveMachineName s m)
                                      tokens := -N, txn_type := .spend
                                      status := .pending, created_at := now0 }]
                 nextId := s.nextId + 1 }) := by
    unfold app_pay
    rw [if_neg hmiss, if_neg hlt]
  have hnone : findTxn s.txns s.nextId = none := (findTxn_eq_none_iff _ _).mpr hfresh
  have hfind1 : findTxn (s.txns ++ [{ id := s.nextId, user_id := u, machine_id := some m
                                      machine_name := some (resolveMachineName s m)
                                      tokens := -N, txn_type := .spend
                                      status := .pending, created_at := now0 }]) s.nextId
      = some { id := s.nextId, user_id := u, machine_id := some m
               machine_name := some (resolveMachineName s m)
               tokens := -N, txn_type := .spend
               status := .pending, created_at := now0 } := by
    rw [findTxn_append, hnone, findTxn_cons]
    simp
  have habs : ((Int.natAbs (-N) : Nat) : Int) = N := by
    rw [Int.natAbs_neg]
    exact Int.natAbs_of_nonneg hN.le
  have hbal2 : addBal (addBal s.balances u (-N)) u ((Int.natAbs (-N) : Nat) : Int) u
      = s.balances u := by
    rw [habs]
    simp [addBal]
  have hv : verify_machine_signature H secret m u N s.nextId
      (H (secret ++ sigMessage m u N s.nextId)) = true := by
    unfold verify_machine_signature
    exact beq_self_eq_true _
  have hstat2 : (findTxn (updateTxn (s.txns ++
        [{ id := s.nextId, user_id := u, machine_id := some m
           machine_name := some (resolveMachineName s m)
           tokens := -N, txn_type := .spend
           status := .pending, created_at := now0 }]) s.nextId
        failTxn) s.nextId).map Txn.status
      = some .failed := by
    rw [findTxn_updateTxn_self _ s.nextId failTxn (fun _ => rfl), hfind1]
    rfl
  refine ⟨by rw [hpay], by rw [hpay]; simp [addBal, sub_eq_add_neg], ⟨?_, ?_, ?_⟩, ?_, ?_, ?_⟩
  · rw [hpay, machine_verify_eq_of_expired hv hfind1 rfl hlate]
  · rw [hpay, machine_verify_eq_of_expired hv hfind1 rfl hlate]
    exact hbal2
  · rw [hpay, machine_verify_eq_of_expired hv hfind1 rfl hlate]
    exact hstat2
  · rw [hpay]
    unfold get_pending
    rw [pendingSorted_eq_single rfl hnp rfl rfl]
    unfold sweepLoop
    rw [if_pos hlate]
    rfl
  · rw [hpay]
    unfold get_pending
    rw [pendingSorted_eq_single rfl hnp rfl rfl]
    unfold sweepLoop
    rw [if_pos hlate]
    exact hbal2
  · rw [hpay]
    unfold get_pending
    rw [pendingSorted_eq_single rfl hnp rfl rfl]
    unfold sweepLoop
    rw [if_pos hlate]
    exact hstat2

/-- C4 at a concrete run: reserve 5 of 10 tokens at time 0, claim at time
100; the verify path refunds and restores the balance to 10. -/
theorem C4_late_claim_refunds_witness :
    ((machine_verify (fun x => x) "k" "M001" "u" 5 (sampleRich.nextId)
        ((fun x => x) ("k" ++ sigMessage "M001" "u" 5 sampleRich.nextId)) 100
        (app_pay "u" "M001" 5 0 sampleRich).2).2).balances "u" = sampleRich.balances "u" :=
  (C4_late_claim_refunds (fun x => x) "k" "u" "M001" 5 0 100 sampleRich
    (by decide) (by decide) (by decide) (by decide) (by decide) (by decide)
    (by decide)).2.2.1.2.1

/-! ### C8 — full characterization of the polling sweep -/

theorem addBal_apply (b : String → Int) (u a v) :
    addBal b u a v = if v = u then b v + a else b v := rfl

theorem sweepLoop_spec (now : Nat) :
    ∀ (ts : List Txn) (s : ServerState) (acc : List PendEntry),
    (ts.map Txn.id).Nodup →
    (∀ r ∈ ts, findTxn s.txns r.id = some r) →
    ((sweepLoop now ts s acc).1
        = acc.reverse
          ++ (ts.filter (fun t => !decide (((now : Int) - (t.created_at : Int)) > 60))).map
              (fun t => ⟨t.id, (t.tokens.natAbs : Int), t.user_id⟩))
    ∧ (∀ r ∈ ts, findTxn ((sweepLoop now ts s acc).2).txns r.id
        = some { r with status :=
            if ((now : Int) - (r.created_at : Int)) > 60 then .failed else .verified })
    ∧ (∀ i : Nat, (∀ r ∈ ts, r.id ≠ i) →
        findTxn ((sweepLoop now ts s acc).2).txns i = findTxn s.txns i)
    ∧ (∀ u : String, ((sweepLoop now ts s acc).2).balances u
        = s.balances u
          + ((ts.filter (fun t => decide ((((now : Int) - (t.created_at : Int)) > 60)
                ∧ t.user_id = u))).map (fun t => (t.tokens.natAbs : Int))).sum) := by
  intro ts
  induction ts with
  | nil =>
    intro s acc _ _
    refine ⟨by simp [sweepLoop], ?_, ?_, ?_⟩
    · intro r hr
      exact absurd hr (List.not_mem_nil r)
    · intro i _
      rfl
    · intro u
      simp [sweepLoop]
  | cons r rest ih =>
    intro s acc hnd hmem
    rw [List.map_cons, List.nodup_cons] at hnd
    have hrest_ne : ∀ r' ∈ rest, r'.id ≠ r.id := fun r' hr' he =>
      absurd (he ▸ List.mem_map_of_mem Txn.id hr') hnd.1
    by_cases hage : ((now : Int) - (r.created_at : Int)) > 60
    · have hstep : sweepLoop now (r :: rest) s acc
          = sweepLoop now rest
              { s with txns := updateTxn s.txns r.id failTxn
                       balances := addBal s.balances r.user_id (r.tokens.natAbs : Int) }
              acc := by
        simp only [sweepLoop]
        rw [if_pos hage]
      have hmem1 : ∀ r' ∈ rest,
          findTxn (updateTxn s.txns r.id failTxn) r'.id = some r' := by
        intro r' hr'
        rw [findTxn_updateTxn_ne s.txns r.id r'.id failTxn (fun _ => rfl) (hrest_ne r' hr')]
        exact hmem r' (List.mem_cons_of_mem r hr')
      obtain ⟨ih1, ih2, ih3, ih4⟩ := ih
        { s with txns := updateTxn s.txns r.id failTxn
                 balances := addBal s.balances r.user_id (r.tokens.natAbs : Int) }
        acc hnd.2 hmem1
      have hdrop : (!decide (((now : Int) - (r.created_at : Int)) > 60)) = false := by
        rw [decide_eq_true hage]
        rfl
      refine ⟨?_, ?_, ?_, ?_⟩
      · rw [hstep, ih1, List.filter_cons, if_neg (by rw [hdrop]; exact Bool.false_ne_true)]
      · intro x hx
        rcases List.mem_cons.mp hx with rfl | hx'
        · rw [hstep, ih3 x.id hrest_ne]
          show findTxn (updateTxn s.txns x.id failTxn) x.id = _
          rw [findTxn_updateTxn_self s.txns x.id failTxn (fun _ => rfl),
            hmem x (List.mem_cons_self x rest)]
          rw [if_pos hage]
          rfl
        · rw [hstep]
          exact ih2 x hx'
      · intro i hi
        rw [hstep, ih3 i (fun r' hr' => hi r' (List.mem_cons_of_mem r hr'))]
        show findTxn (updateTxn s.txns r.id failTxn) i = findTxn s.txns i
        exact findTxn_updateTxn_ne s.txns r.id i failTxn (fun _ => rfl)
          (fun he => hi r (List.mem_cons_self r rest) he.symm)
      · intro u
        rw [hstep, ih4 u]
        show addBal s.balances r.user_id (r.tokens.natAbs : Int) u + _ = _
        rw [List.filter_cons, addBal_apply]
        by_cases hu : r.user_id = u
        · have hd : decide ((((now : Int) - (r.created_at : Int)) > 60) ∧ r.user_id = u)
              = true := decide_eq_true ⟨hage, hu⟩
          rw [if_pos hd, if_pos hu.symm, List.map_cons, List.sum_cons]
          exact add_assoc _ _ _
        · have hd : decide ((((now : Int) - (r.created_at : Int)) > 60) ∧ r.user_id = u)
              = false := decide_eq_false (fun hc => hu hc.2)
          have hne1 : ¬ (decide ((((now : Int) - (r.created_at : Int)) > 60) ∧ r.user_id = u)
              = true) := by
            rw [hd]
            exact Bool.false_ne_true
          have hne2 : ¬ u = r.user_id := fun he => hu he.symm
          rw [if_neg hne1, if_neg hne2]
    · have hstep : sweepLoop now (r :: rest) s acc
          = sweepLoop now rest
              { s with txns := updateTxn s.txns r.id verifyTxn }
              (⟨r.id, (r.tokens.natAbs : Int), r.user_id⟩ :: acc) := by
        simp only [sweepLoop]
        rw [if_neg hage]
      have hmem1 : ∀ r' ∈ rest,
          findTxn (updateTxn s.txns r.id verifyTxn) r'.id = some r' := by
        intro r' hr'
        rw [findTxn_updateTxn_ne s.txns r.id r'.id verifyTxn (fun _ => rfl) (hrest_ne r' hr')]
        exact hmem r' (List.mem_cons_of_mem r hr')
      obtain ⟨ih1, ih2, ih3, ih4⟩ := ih
        { s with txns := updateTxn s.txns r.id verifyTxn }
        (⟨r.id, (r.tokens.natAbs : Int), r.user_id⟩ :: acc) hnd.2 hmem1
      have hkeep : (!decide (((now : Int) - (r.created_at : Int)) > 60)) = true := by
        rw [decide_eq_false hage]
        rfl
      refine ⟨?_, ?_, ?_, ?_⟩
      · rw [hstep, ih1, List.filter_cons, if_pos hkeep, List.map_cons,
          List.reverse_cons, List.append_assoc, List.singleton_append]
      · intro x hx
        rcases List.mem_cons.mp hx with rfl | hx'
        · rw [hstep, ih3 x.id hrest_ne]
          show findTxn (updateTxn s.txns x.id verifyTxn) x.id = _
          rw [findTxn_updateTxn_self s.txns x.id verifyTxn (fun _ => rfl),
            hmem x (List.mem_cons_self x rest)]
          rw [if_neg hage]
          rfl
        · rw [hstep]
          exact ih2 x hx'
      · intro i hi
        rw [hstep, ih3 i (fun r' hr' => hi r' (List.mem_cons_of_mem r hr'))]
        show findTxn (updateTxn s.txns r.id verifyTxn) i = findTxn s.txns i
        exact findTxn_updateTxn_ne s.txns r.id i verifyTxn (fun _ => rfl)
          (fun he => hi r (List.mem_cons_self r rest) he.symm)
      · intro u
        rw [hstep, ih4 u]
        show s.balances u + _ = _
        rw [List.filter_cons]
        have hd : decide ((((now : Int) - (r.created_at : Int)) > 60) ∧ r.user_id = u)
            = false := decide_eq_false (fun hc => hage hc.1)
        rw [if_neg (by rw [hd]; exact Bool.false_ne_true)]

instance : IsTotal Txn (fun a b => a.created_at ≤ b.created_at) :=
  ⟨fun a b => Nat.le_total a.created_at b.created_at⟩

instance : IsTrans Txn (fun a b => a.created_at ≤ b.created_at) :=
  ⟨fun _ _ _ h1 h2 => Nat.le_trans h1 h2⟩

theorem pendingSorted_sorted (m : String) (s : ServerState) :
    List.Sorted (fun a b : Txn => a.created_at ≤ b.created_at) (pendingSorted m s) := by
  unfold pendingSorted
  exact List.sorted_insertionSort _ _

theorem pendingSorted_findTxn (m : String) (s : ServerState) (h : NodupIds s) :
    ∀ r ∈ pendingSorted m s, findTxn s.txns r.id = some r := fun r hr =>
  findTxn_of_mem _ _ h (pendingSorted_mem m s hr).1

theorem mem_pendingSorted (m : String) (s : ServerState) {x : Txn} (hx : x ∈ s.txns)
    (hm : x.machine_id = some m) (hp : x.status = .pending) :
    x ∈ pendingSorted m s := by
  unfold pendingSorted
  rw [List.mem_insertionSort]
  exact List.mem_filter.mpr ⟨hx, decide_eq_true ⟨hm, hp⟩⟩

theorem get_pending_clears (m : String) (now : Nat) (s : ServerState) (h : Inv s) :
    ∀ x ∈ ((get_pending m now s).2).txns,
      ¬ (x.machine_id = some m ∧ x.status = .pending) := by
  intro x hx hpx
  obtain ⟨_, ih2, ih3, _⟩ := sweepLoop_spec now (pendingSorted m s) s []
    (pendingSorted_nodup_ids m s h.2) (pendingSorted_findTxn m s h.2)
  have hnd' : (((sweepLoop now (pendingSorted m s) s []).2).txns.map Txn.id).Nodup := by
    rw [(sweepLoop_map_id_nextId now _ s []).1]
    exact h.2
  have hfx : findTxn ((sweepLoop now (pendingSorted m s) s []).2).txns x.id = some x :=
    findTxn_of_mem _ _ hnd' hx
  by_cases hcase : ∃ t ∈ pendingSorted m s, t.id = x.id
  · rcases hcase with ⟨t, ht, hti⟩
    have hft := ih2 t ht
    rw [← hti] at hfx
    rw [hfx] at hft
    have hx2 : x = { t with status := if ((now : Int) - (t.created_at : Int)) > 60
        then .failed else .verified } := Option.some_injective _ hft
    have hxs : x.status ≠ .pending := by
      rw [hx2]
      by_cases hage : ((now : Int) - (t.created_at : Int)) > 60
      · rw [if_pos hage]
        exact fun hc => Status.noConfusion hc
      · rw [if_neg hage]
        exact fun hc => Status.noConfusion hc
    exact hxs hpx.2
  · push_neg at hcase
    have h3 := ih3 x.id hcase
    rw [hfx] at h3
    have hxmem : x ∈ s.txns := (findTxn_eq_some _ _ _ h3.symm).1
    exact hcase x (mem_pendingSorted m s hxmem hpx.1 hpx.2) rfl

/-- C8: `get_pending` fetches exactly the machine's pending transactions,
visits them oldest-first; an expired one (age > 60) ends `failed`, its
owner is credited its absolute delta, and its id never appears in the
result; a fresh one ends `verified` and is returned as
`(transactionId, |tokens|, userId)`; and a second poll, at any later
instant, returns nothing. -/
theorem C8_sweep_spec (m : String) (now : Nat) (s : ServerState) (h : Inv s) :
    List.Sorted (fun a b : Txn => a.created_at ≤ b.created_at) (pendingSorted m s)
    ∧ (∀ t : Txn, t ∈ pendingSorted m s
        ↔ t ∈ s.txns ∧ t.machine_id = some m ∧ t.status = .pending)
    ∧ (get_pending m now s).1
        = ((pendingSorted m s).filter
            (fun t => !decide (((now : Int) - (t.created_at : Int)) > 60))).map
            (fun t => ⟨t.id, (t.tokens.natAbs : Int), t.user_id⟩)
    ∧ (∀ t ∈ pendingSorted m s,
        findTxn ((get_pending m now s).2).txns t.id
          = some { t with status := if ((now : Int) - (t.created_at : Int)) > 60
              then .failed else .verified })
    ∧ (∀ t ∈ pendingSorted m s, ((now : Int) - (t.created_at : Int)) > 60 →
        ∀ e ∈ (get_pending m now s).1, e.id ≠ t.id)
    ∧ (∀ u : String, ((get_pending m now s).2).balances u
        = s.balances u + (((pendingSorted m s).filter
            (fun t => decide ((((now : Int) - (t.created_at : Int)) > 60) ∧ t.user_id = u))).map
            (fun t => (t.tokens.natAbs : Int))).sum)
    ∧ (∀ now2 : Nat, (get_pending m now2 (get_pending m now s).2).1 = []) := by
  obtain ⟨ih1, ih2, ih3, ih4⟩ := sweepLoop_spec now (pendingSorted m s) s []
    (pendingSorted_nodup_ids m s h.2) (pendingSorted_findTxn m s h.2)
  have hres : (get_pending m now s).1
      = ((pendingSorted m s).filter
          (fun t => !decide (((now : Int) - (t.created_at : Int)) > 60))).map
          (fun t => ⟨t.id, (t.tokens.natAbs : Int), t.user_id⟩) := by
    unfold get_pending
    rw [ih1]
    rfl
  refine ⟨pendingSorted_sorted m s, ?_, hres, ?_, ?_, ?_, ?_⟩
  · intro t
    constructor
    · exact fun ht => ⟨(pendingSorted_mem m s ht).1, (pendingSorted_mem m s ht).2⟩
    · exact fun ht => mem_pendingSorted m s ht.1 ht.2.1 ht.2.2
  · exact ih2
  · intro t ht hage e he hei
    rw [hres] at he
    rcases List.mem_map.mp he with ⟨t', ht', rfl⟩
    rcases List.mem_filter.mp ht' with ⟨ht'q, ht'fresh⟩
    have htt : t' = t :=
      eq_of_mem_of_id_eq (pendingSorted_nodup_ids m s h.2) ht'q ht hei
    rw [htt] at ht'fresh
    rw [Bool.not_eq_true'] at ht'fresh
    exact absurd hage (of_decide_eq_false ht'fresh)
  · exact ih4
  · intro now2
    have hq : pendingSorted m (get_pending m now s).2 = [] := by
      unfold pendingSorted
      rw [List.filter_eq_nil_iff.mpr ?_]
      · rfl
      · intro a ha
        simp only [decide_eq_true_eq]
        exact get_pending_clears m now s h a ha
    show (sweepLoop now2 (pendingSorted m (get_pending m now s).2)
      (get_pending m now s).2 []).1 = []
    rw [hq]
    rfl

/-- C8 at a concrete input: polling the sample state at time 0 returns the
single fresh pending reservation, in the filter-map form the theorem
gives. -/
theorem C8_sweep_spec_witness :
    (get_pending "M001" 0 sampleStatePending).1
      = ((pendingSorted "M001" sampleStatePending).filter
          (fun t => !decide ((((0 : Nat) : Int) - (t.created_at : Int)) > 60))).map
          (fun t => ⟨t.id, (t.tokens.natAbs : Int), t.user_id⟩) :=
  (C8_sweep_spec "M001" 0 sampleStatePending (by decide)).2.2.1

end ArcadePay
